import Mathlib

/-!
Verification of the planIT scheduler's command-interpretation and
event-lifecycle engine (Express + Mongoose server, two variants present:
the chat-enabled server in `src/unnamed/part_000` and the older variant in
`src/server.js`).

Timestamps are modelled as natural numbers of milliseconds on the local
(Asia/Manila) clock; the zone has a fixed UTC offset and no daylight saving,
so local-clock arithmetic is exact.  The document store is modelled as a
list of events; `findOne` is `List.find?`, `find` is `List.filter`,
`updateMany`/`save` are `List.map` updates.  String fields (titles, labels,
hints) play no role in any property below and are omitted from the record.
-/

namespace PlanIT

/-- Resolved status of an event; a pending event carries `none`. -/
inductive Status where
  | completed
  | missed
deriving DecidableEq

/-- Two-valued importance/urgency level (`"high"` / `"low"`). -/
inductive Level where
  | high
  | low
deriving DecidableEq

/-- Difficulty enum (`"easy"` / `"medium"` / `"hard"`). -/
inductive Difficulty where
  | easy
  | medium
  | hard
deriving DecidableEq

/-- The Event document (schema in both server variants).  `start` and `end_`
are millisecond timestamps (the schema's `start`/`end`; `end` is reserved in
Lean).  `segmentOf` holds the parent's id for a child segment. -/
structure Event where
  id : ℕ
  userId : ℕ
  start : ℕ
  end_ : ℕ
  importance : Level
  urgency : Level
  difficulty : Difficulty
  status : Option Status
  segmentOf : Option ℕ
  segmentIndex : Option ℕ
deriving DecidableEq

/-- `Event.findById` on the modelled store. -/
def findById (db : List Event) (i : ℕ) : Option Event :=
  db.find? (fun ev => ev.id == i)

/-- `Event.find({ segmentOf: pid })`. -/
def childrenOf (db : List Event) (pid : ℕ) : List Event :=
  db.filter (fun ev => ev.segmentOf == some pid)

/-- Write `status` on the event with the given id (`event.save()` /
`findByIdAndUpdate(id, { status })`). -/
def setStatus (db : List Event) (i : ℕ) (st : Status) : List Event :=
  db.map (fun ev => if ev.id == i then { ev with status := some st } else ev)

/-- Number of children counted `completed` (`children.filter(c => c.status === "completed").length`). -/
def completedCount (l : List Event) : ℕ :=
  (l.filter (fun c => c.status == some Status.completed)).length

/-- Number of children counted `missed`. -/
def missedCount (l : List Event) : ℕ :=
  (l.filter (fun c => c.status == some Status.missed)).length

/-- `PATCH /events/:id/status` of `src/unnamed/part_000` (lines 324-379):
write the requested status unconditionally; if the event is a child, re-read
the siblings and, when every one is resolved, finalize the parent to
`completed` when zero are missed and `missed` otherwise; if the event is a
parent marked completed, cascade `completed` onto its still-pending children. -/
def patchStatus (db : List Event) (i : ℕ) (st : Status) : Except String (List Event) :=
  match findById db i with
  | none => .error "Event not found"
  | some event =>
    let db1 := setStatus db i st
    match event.segmentOf with
    | some parentId =>
      let children := childrenOf db1 parentId
      if completedCount children + missedCount children = children.length then
        let finalStatus := if missedCount children = 0 then Status.completed else Status.missed
        .ok (setStatus db1 parentId finalStatus)
      else
        .ok db1
    | none =>
      if st = Status.completed then
        .ok (db1.map (fun ev =>
          if ev.segmentOf == some i && ev.status == none then
            { ev with status := some Status.completed }
          else ev))
      else
        .ok db1

/-- `PATCH /events/:id/status` of the `src/server.js` variant (lines 345-406):
the parent is finalized only when a child is marked `completed` and all
children are then `completed`; a parent marked completed cascades
`completed` onto every child not already completed. -/
def serverPatchStatus (db : List Event) (i : ℕ) (st : Status) : Except String (List Event) :=
  match findById db i with
  | none => .error "Event not found"
  | some event =>
    let db1 := setStatus db i st
    match event.segmentOf with
    | some parentId =>
      if st = Status.completed then
        let total := (childrenOf db1 parentId).length
        if 0 < total ∧ completedCount (childrenOf db1 parentId) = total then
          .ok (setStatus db1 parentId Status.completed)
        else
          .ok db1
      else
        .ok db1
    | none =>
      if st = Status.completed then
        .ok (db1.map (fun ev =>
          if ev.segmentOf == some i && ev.status != some Status.completed then
            { ev with status := some Status.completed }
          else ev))
      else
        .ok db1

/-- Conflict lookup of the chat ADD_TASK branch (`part_000` lines 939-943):
`findOne({ userId, start, end })` — exact interval match for the owner. -/
def chatAddConflict (db : List Event) (uid s e : ℕ) : Option Event :=
  db.find? (fun ev => ev.userId == uid && ev.start == s && ev.end_ == e)

/-- Conflict lookup of the chat EDIT_TASK branch (`part_000` lines 1013-1018):
exact interval match for the owner, excluding the edited event itself. -/
def chatEditConflict (db : List Event) (uid exId s e : ℕ) : Option Event :=
  db.find? (fun ev => ev.userId == uid && ev.id != exId && ev.start == s && ev.end_ == e)

/-- Conflict lookup of `POST /events` in `part_000` (line 258): exact
interval match for the owner. -/
def postEventsConflict (db : List Event) (uid s e : ℕ) : Option Event :=
  db.find? (fun ev => ev.userId == uid && ev.start == s && ev.end_ == e)

/-- Conflict lookup of `POST /events` in the `src/server.js` variant
(lines 268-272): `findOne({ userId, start: { $lt: e }, end: { $gt: s } })`
— interval overlap, not exact match. -/
def serverJsPostEventsConflict (db : List Event) (uid s e : ℕ) : Option Event :=
  db.find? (fun ev => ev.userId == uid && ev.start < e && s < ev.end_)

/-- The split plan loop shared by both split code paths (`part_000` lines
408-418 and 1496-1506): lay `k` segments back to back from `cursor`, each
`base` minutes long plus one extra minute while `rem` lasts, inserting a
`brk`-minute break after every segment but the last. -/
def planSegs (base brk : ℕ) : ℕ → ℕ → ℕ → List (ℕ × ℕ)
  | _, _, 0 => []
  | cursor, rem, k + 1 =>
    let thisDur := base + (if 0 < rem then 1 else 0)
    let segEnd := cursor + thisDur * 60000
    (cursor, segEnd) ::
      planSegs base brk (if 0 < k then segEnd + brk * 60000 else segEnd) (rem - 1) k

/-- Child creation over a plan (`Event.create` in the `plan.map` of both
split paths): segment `i` inherits the parent's owner and attributes,
starts pending, and points back at the parent via `segmentOf`. -/
def mkSegments (parent : Event) (freshId : ℕ) : List (ℕ × ℕ) → ℕ → List Event
  | [], _ => []
  | p :: rest, i =>
    { id := freshId + i
      userId := parent.userId
      start := p.1
      end_ := p.2
      importance := parent.importance
      urgency := parent.urgency
      difficulty := parent.difficulty
      status := none
      segmentOf := some parent.id
      segmentIndex := some i } :: mkSegments parent freshId rest (i + 1)

/-- `POST /events/:id/split` of `part_000` (lines 382-445).  `freshId` seeds
the ids the store assigns to the created children.  Guards, in source
order: parent must exist, `end > start`, `count >= 2` (after `max(1, ...)`),
breaks must leave positive usable time.  There is no minimum-duration guard
in this handler.  Returns the created child segments. -/
def splitHandler (db : List Event) (freshId : ℕ) (i : ℕ) (count brk : ℕ) :
    Except String (List Event) :=
  match findById db i with
  | none => .error "Parent event not found"
  | some parent =>
    if parent.end_ ≤ parent.start then .error "Invalid parent time range"
    else
      let n := max 1 count
      if n < 2 then .error "Nothing to split"
      else
        let totalMinutes := (parent.end_ - parent.start) / 60000
        if totalMinutes ≤ (n - 1) * brk then .error "Breaks too large for given window"
        else
          let usable := totalMinutes - (n - 1) * brk
          let baseSeg := usable / n
          let rem := usable % n
          .ok (mkSegments parent freshId (planSegs baseSeg brk parent.start rem n) 0)

/-- The chat SPLIT_TASK branch of `part_000` (lines 1476-1531), from the
point where the target event has been resolved by title.  `count` is
clamped to at least 2; guards in source order: usable time positive, then
the 180-minute policy floor. -/
def chatSplitCore (freshId : ℕ) (ev : Event) (countReq brkReq : ℕ) :
    Except String (List Event) :=
  let count := max 2 countReq
  let breakMinutes := brkReq
  let totalMinutes := (ev.end_ - ev.start) / 60000
  if totalMinutes ≤ (count - 1) * breakMinutes then
    .error "Breaks too large for the window."
  else if totalMinutes < 180 then
    .error "Event or task must be at least 3 hours (180 minutes) to split."
  else
    let usable := totalMinutes - (count - 1) * breakMinutes
    let baseSeg := usable / count
    let rem := usable % count
    .ok (mkSegments ev freshId (planSegs baseSeg breakMinutes ev.start rem count) 0)

/-- The chat MARK branch of `part_000` (lines 1251-1301), from the point
where the target parent has been resolved by title.  `now` is the current
local-clock time.  Completed: reject if any child still ends in the future;
with children, set every child completed (no pending filter); standalone,
reject if the event itself ends in the future.  Missed: set pending
children missed, no time check.  Finally write the parent's own status. -/
def chatMark (db : List Event) (now : ℕ) (parent : Event) (st : Status) :
    Except String (List Event) :=
  let kids := childrenOf db parent.id
  match st with
  | Status.completed =>
    if kids.filter (fun k => now < k.end_) ≠ [] then
      .error "Some segments are still in the future."
    else if kids ≠ [] then
      let db1 := db.map (fun ev =>
        if ev.segmentOf == some parent.id then { ev with status := some Status.completed } else ev)
      .ok (setStatus db1 parent.id Status.completed)
    else if now < parent.end_ then
      .error "Cannot mark as completed because it ends in the future."
    else
      .ok (setStatus db parent.id Status.completed)
  | Status.missed =>
    let db1 := db.map (fun ev =>
      if ev.segmentOf == some parent.id && ev.status == none then
        { ev with status := some Status.missed }
      else ev)
    .ok (setStatus db1 parent.id Status.missed)

/-- The chat MARK_SEGMENT branch of `part_000` (lines 1172-1206), from the
point where parent and child have been resolved: reject a completed mark on
a child that ends in the future, otherwise write the child's status and
finalize the parent exactly as the PATCH handler does. -/
def chatMarkSegment (db : List Event) (now : ℕ) (parent child : Event) (st : Status) :
    Except String (List Event) :=
  if st = Status.completed ∧ now < child.end_ then
    .error "Cannot mark the segment completed because it ends in the future."
  else
    let db1 := setStatus db child.id st
    let siblings := childrenOf db1 parent.id
    if completedCount siblings + missedCount siblings = siblings.length then
      let finalStatus := if missedCount siblings = 0 then Status.completed else Status.missed
      .ok (setStatus db1 parent.id finalStatus)
    else
      .ok db1

/-- An advisory rescheduling suggestion (label and hint strings elided). -/
structure Suggestion where
  start : ℕ
  end_ : ℕ
deriving DecidableEq

/-- Milliseconds in a local calendar day. -/
def msPerDay : ℕ := 86400000

/-- `startOf("day")` on a local-clock millisecond timestamp. -/
def startOfDay (t : ℕ) : ℕ :=
  t - t % msPerDay

/-- `buildSuggestions` (`part_000` lines 785-812): from a non-empty conflict
list, the latest conflict end is folded up starting from the first
conflict's end; suggestion 1 starts at that end or `now`, whichever is
later; suggestion 2 one hour later; suggestion 3 at 08:00 on the day after
`now`; all last `max(1, duration)` minutes. -/
def buildSuggestions (conflicts : List Event) (now : ℕ) (newEventDurationMin : ℕ) :
    List Suggestion :=
  match conflicts with
  | [] => []
  | c0 :: rest =>
    let latestEnd := (c0 :: rest).foldl (fun acc c => if acc < c.end_ then c.end_ else acc) c0.end_
    let baseStart := if now < latestEnd then latestEnd else now
    let dur := max 1 newEventDurationMin
    let opt1Start := baseStart
    let opt2Start := baseStart + 3600000
    let opt3Start := startOfDay (now + msPerDay) + 8 * 3600000
    [ ⟨opt1Start, opt1Start + dur * 60000⟩,
      ⟨opt2Start, opt2Start + dur * 60000⟩,
      ⟨opt3Start, opt3Start + dur * 60000⟩ ]

/-- A calendar date in the operating timezone; `month` is the zero-based
month index used by the parser's month table. -/
structure SDate where
  year : ℕ
  month : ℕ
  day : ℕ
deriving DecidableEq

/-- Strict `isBefore(..., "day")` ordering on calendar dates. -/
def dateBefore (a b : SDate) : Prop :=
  a.year < b.year ∨ (a.year = b.year ∧ (a.month < b.month ∨ (a.month = b.month ∧ a.day < b.day)))

instance (a b : SDate) : Decidable (dateBefore a b) := by
  unfold dateBefore
  infer_instance

/-- Gregorian leap-year test. -/
def isLeap (y : ℕ) : Bool :=
  (y % 4 == 0 && y % 100 != 0) || y % 400 == 0

/-- Number of days in the zero-based month `m` of year `y`. -/
def daysInMonth (y m : ℕ) : ℕ :=
  if m = 1 then (if isLeap y then 29 else 28)
  else if m = 3 ∨ m = 5 ∨ m = 8 ∨ m = 10 then 30
  else 31

/-- dayjs `add(1, "year")`: increment the year keeping month and day, except
that a day past the end of the target month is clamped to its last day —
Feb 29 of a leap year becomes Feb 28 of the next year. -/
def addOneYear (d : SDate) : SDate :=
  ⟨d.year + 1, d.month, min d.day (daysInMonth (d.year + 1) d.month)⟩

/-- `findMonthDay` (`part_000` lines 663-678), after the month token has
been looked up, on an input that names a real date of the current year (the
handler's `isValid()` check rejects garbage): with an explicit year the
date is taken as written; with no year the current year is assumed and,
when that date is already before today, one year is added with dayjs's
end-of-month clamping (`addOneYear`). -/
def findMonthDay (today : SDate) (monIdx dayNum : ℕ) (year : Option ℕ) : SDate :=
  match year with
  | some y => ⟨y, monIdx, dayNum⟩
  | none =>
    let d : SDate := ⟨today.year, monIdx, dayNum⟩
    if dateBefore d today then addOneYear d else d

/-- The data-model invariant of spec §3: an event with `segmentOf` set (a
child) is never itself referenced as the parent of another event. -/
def childInv (db : List Event) : Prop :=
  ∀ e ∈ db, ∀ e' ∈ db, e'.segmentOf = some e.id → e.segmentOf = none

instance (db : List Event) : Decidable (childInv db) := by
  unfold childInv
  infer_instance

/-! ## Store lemmas -/

lemma findById_map (db : List Event) (f : Event → Event) (hf : ∀ e, (f e).id = e.id)
    (i : ℕ) : findById (db.map f) i = (findById db i).map f := by
  induction db with
  | nil => rfl
  | cons a l ih =>
    simp only [findById, List.map_cons, List.find?_cons] at *
    by_cases h : a.id = i
    · simp [hf a, h]
    · have h1 : ((f a).id == i) = false := by simp [hf a, h]
      have h2 : (a.id == i) = false := by simp [h]
      rw [h1, h2]
      exact ih

lemma mem_of_findById (db : List Event) (i : ℕ) (ev : Event)
    (h : findById db i = some ev) : ev ∈ db ∧ ev.id = i := by
  have hmem := List.mem_of_find?_eq_some h
  have hp := List.find?_some h
  simp only [beq_iff_eq] at hp
  exact ⟨hmem, hp⟩

lemma setStatus_preserves_id (i : ℕ) (st : Status) (e : Event) :
    (if e.id == i then { e with status := some st } else e).id = e.id := by
  by_cases h : e.id = i <;> simp [h]

lemma findById_setStatus_self (db : List Event) (i : ℕ) (st : Status) (ev : Event)
    (h : findById db i = some ev) :
    findById (setStatus db i st) i = some { ev with status := some st } := by
  unfold setStatus
  rw [findById_map db _ (setStatus_preserves_id i st) i, h]
  have : ev.id = i := (mem_of_findById db i ev h).2
  simp [this]

lemma findById_setStatus_other (db : List Event) (i j : ℕ) (st : Status) (ev : Event)
    (h : findById db j = some ev) (hne : i ≠ j) :
    findById (setStatus db i st) j = some ev := by
  unfold setStatus
  rw [findById_map db _ (setStatus_preserves_id i st) j, h]
  have : ev.id = j := (mem_of_findById db j ev h).2
  have : ¬ (ev.id = i) := by omega
  simp [this]

lemma count_cons_c (a : Event) (l : List Event) :
    completedCount (a :: l)
      = completedCount l + (if a.status = some Status.completed then 1 else 0) := by
  simp only [completedCount, List.filter_cons]
  by_cases h : a.status = some Status.completed <;> simp [h]

lemma count_cons_m (a : Event) (l : List Event) :
    missedCount (a :: l)
      = missedCount l + (if a.status = some Status.missed then 1 else 0) := by
  simp only [missedCount, List.filter_cons]
  by_cases h : a.status = some Status.missed <;> simp [h]

lemma resolved_le (l : List Event) : completedCount l + missedCount l ≤ l.length := by
  induction l with
  | nil => simp [completedCount, missedCount]
  | cons a l ih =>
    rw [count_cons_c, count_cons_m, List.length_cons]
    rcases hst : a.status with _ | st
    · simp
      omega
    · cases st <;> simp <;> omega

lemma resolved_count (l : List Event) :
    completedCount l + missedCount l = l.length ↔ ∀ k ∈ l, k.status ≠ none := by
  induction l with
  | nil => simp [completedCount, missedCount]
  | cons a l ih =>
    have h1 : completedCount l ≤ l.length := List.length_filter_le _ _
    have h2 : missedCount l ≤ l.length := List.length_filter_le _ _
    have h3 := resolved_le l
    rw [count_cons_c, count_cons_m, List.length_cons]
    have hstep : ∀ k ∈ a :: l, k ∈ l ∨ k.status = a.status := by
      intro k hk
      rcases List.mem_cons.mp hk with rfl | hk'
      · exact Or.inr rfl
      · exact Or.inl hk'
    rcases hst : a.status with _ | st
    · constructor
      · intro h
        exfalso
        simp at h
        omega
      · intro h
        exact absurd hst (h a (List.mem_cons_self a l))
    · cases st
      · constructor
        · intro h k hk
          rcases hstep k hk with hk' | hk'
          · refine (ih.mp ?_) k hk'
            simp at h
            omega
          · rw [hk', hst]
            simp
        · intro h
          have hl := ih.mpr (fun k hk => h k (List.mem_cons_of_mem a hk))
          simp
          omega
      · constructor
        · intro h k hk
          rcases hstep k hk with hk' | hk'
          · refine (ih.mp ?_) k hk'
            simp at h
            omega
          · rw [hk', hst]
            simp
        · intro h
          have hl := ih.mpr (fun k hk => h k (List.mem_cons_of_mem a hk))
          simp
          omega

/-! ## Segmentation plan lemmas -/

lemma planSegs_length (base brk : ℕ) :
    ∀ (k c r : ℕ), (planSegs base brk c r k).length = k := by
  intro k
  induction k with
  | zero => intro c r; rfl
  | succ k ih =>
    intro c r
    simp only [planSegs, List.length_cons, ih]

lemma getLast?_cons_ne {α : Type} (a : α) (l : List α) (h : l ≠ []) :
    (a :: l).getLast? = l.getLast? := by
  cases l with
  | nil => exact absurd rfl h
  | cons b t => exact List.getLast?_cons_cons

lemma planSegs_durSum (base brk : ℕ) :
    ∀ (k c r : ℕ),
      ((planSegs base brk c r k).map (fun p => (p.2 - p.1) / 60000)).sum
        = k * base + min r k := by
  intro k
  induction k with
  | zero => intro c r; simp [planSegs]
  | succ k ih =>
    intro c r
    simp only [planSegs, List.map_cons, List.sum_cons]
    rw [ih]
    have hd : (c + (base + if 0 < r then 1 else 0) * 60000 - c) / 60000
        = base + (if 0 < r then 1 else 0) := by
      have := Nat.add_sub_cancel_left (n := c) (m := (base + if 0 < r then 1 else 0) * 60000)
      rw [this, Nat.mul_div_cancel]
      omega
    rw [hd, Nat.succ_mul]
    by_cases hr : 0 < r <;> simp [hr] <;> omega

lemma planSegs_getLast (base brk : ℕ) :
    ∀ (k c r : ℕ), 0 < k →
      ∃ q : ℕ × ℕ, (planSegs base brk c r k).getLast? = some q ∧
        q.2 = c + (k * base + min r k) * 60000 + (k - 1) * (brk * 60000) := by
  intro k
  induction k with
  | zero => intro c r h; exact absurd h (lt_irrefl 0)
  | succ k ih =>
    intro c r _
    by_cases hk : 0 < k
    · obtain ⟨k', rfl⟩ : ∃ k', k = k' + 1 := ⟨k - 1, by omega⟩
      obtain ⟨q, hq, hq2⟩ :=
        ih (c + (base + if 0 < r then 1 else 0) * 60000 + brk * 60000) (r - 1) hk
      have hne : planSegs base brk
          (c + (base + if 0 < r then 1 else 0) * 60000 + brk * 60000) (r - 1) (k' + 1)
            ≠ [] := by
        apply List.ne_nil_of_length_pos
        rw [planSegs_length]
        omega
      have hunfold : planSegs base brk c r (k' + 1 + 1)
          = (c, c + (base + if 0 < r then 1 else 0) * 60000) ::
            planSegs base brk
              (c + (base + if 0 < r then 1 else 0) * 60000 + brk * 60000) (r - 1) (k' + 1) := by
        simp only [planSegs]
        rw [if_pos hk]
      refine ⟨q, ?_, ?_⟩
      · rw [hunfold, getLast?_cons_ne _ _ hne]
        exact hq
      · rw [hq2]
        have hmin : (if 0 < r then 1 else 0) + min (r - 1) (k' + 1) = min r (k' + 1 + 1) := by
          by_cases hr : 0 < r <;> simp [hr] <;> omega
        rw [← hmin]
        simp only [Nat.add_sub_cancel]
        by_cases hr : 0 < r <;> simp [hr] <;> ring
    · have hk0 : k = 0 := by omega
      subst hk0
      refine ⟨(c, c + (base + if 0 < r then 1 else 0) * 60000), ?_, ?_⟩
      · simp [planSegs]
      · have hmin : min r 1 = (if 0 < r then 1 else 0) := by
          by_cases hr : 0 < r <;> simp [hr] <;> omega
        rw [hmin]
        simp only [Nat.add_sub_cancel]
        by_cases hr : 0 < r <;> simp [hr]

/-! ## Created-segment lemmas -/

lemma mkSegments_intervals (parent : Event) (freshId : ℕ) :
    ∀ (plan : List (ℕ × ℕ)) (i : ℕ),
      (mkSegments parent freshId plan i).map (fun e => (e.start, e.end_)) = plan := by
  intro plan
  induction plan with
  | nil => intro i; rfl
  | cons p rest ih =>
    intro i
    simp only [mkSegments, List.map_cons, ih]

lemma mkSegments_mem (parent : Event) (freshId : ℕ) :
    ∀ (plan : List (ℕ × ℕ)) (i : ℕ) (e : Event),
      e ∈ mkSegments parent freshId plan i →
        e.segmentOf = some parent.id ∧ e.status = none ∧
        e.userId = parent.userId ∧ ∃ j, i ≤ j ∧ e.id = freshId + j := by
  intro plan
  induction plan with
  | nil => intro i e h; exact absurd h (List.not_mem_nil e)
  | cons p rest ih =>
    intro i e h
    rcases List.mem_cons.mp h with rfl | h'
    · exact ⟨rfl, rfl, rfl, i, le_refl i, rfl⟩
    · obtain ⟨h1, h2, h3, j, hij, hj⟩ := ih (i + 1) e h'
      exact ⟨h1, h2, h3, j, by omega, hj⟩

lemma splitHandler_ok_shape (db : List Event) (freshId i count brk : ℕ) (parent : Event)
    (hp : findById db i = some parent)
    (h1 : parent.start < parent.end_)
    (h2 : 2 ≤ max 1 count)
    (h3 : (max 1 count - 1) * brk < (parent.end_ - parent.start) / 60000) :
    splitHandler db freshId i count brk =
      .ok (mkSegments parent freshId
        (planSegs
          (((parent.end_ - parent.start) / 60000 - (max 1 count - 1) * brk) / max 1 count)
          brk parent.start
          (((parent.end_ - parent.start) / 60000 - (max 1 count - 1) * brk) % max 1 count)
          (max 1 count)) 0) := by
  simp only [splitHandler, hp]
  rw [if_neg (by omega), if_neg (by omega), if_neg (by omega)]

lemma mkSegments_durMap (parent : Event) (freshId : ℕ) (plan : List (ℕ × ℕ)) (i : ℕ) :
    (mkSegments parent freshId plan i).map (fun e => (e.end_ - e.start) / 60000)
      = plan.map (fun p => (p.2 - p.1) / 60000) := by
  rw [show (fun (e : Event) => (e.end_ - e.start) / 60000)
      = (fun p : ℕ × ℕ => (p.2 - p.1) / 60000) ∘ (fun e : Event => (e.start, e.end_)) from rfl,
    ← List.map_map, mkSegments_intervals]

/-- C1 (amended): for every valid split request (parent found, `end > start`,
`count >= 2`, breaks leaving positive usable time), the request succeeds and
the produced segments satisfy exact conservation — the sum of the segment
durations in minutes plus `(count - 1) * brk` break minutes equals
`totalMinutes = floor((end - start) / 60000)` — and the final segment ends at
`start + totalMinutes` minutes, which equals the parent's `end` exactly
whenever the parent's duration is a whole number of minutes. -/
theorem split_conservation (db : List Event) (freshId i count brk : ℕ) (parent : Event)
    (hp : findById db i = some parent)
    (h1 : parent.start < parent.end_)
    (h2 : 2 ≤ count)
    (h3 : (count - 1) * brk < (parent.end_ - parent.start) / 60000) :
    ∃ segs : List Event,
      splitHandler db freshId i count brk = .ok segs ∧
      ((segs.map (fun e => (e.end_ - e.start) / 60000)).sum + (count - 1) * brk
          = (parent.end_ - parent.start) / 60000) ∧
      (∃ lastSeg : Event, segs.getLast? = some lastSeg ∧
        lastSeg.end_ = parent.start + ((parent.end_ - parent.start) / 60000) * 60000 ∧
        ((parent.end_ - parent.start) % 60000 = 0 → lastSeg.end_ = parent.end_)) := by
  have hmax : max 1 count = count := by omega
  have hshape := splitHandler_ok_shape db freshId i count brk parent hp h1
    (by omega) (by rw [hmax]; exact h3)
  rw [hmax] at hshape
  refine ⟨_, hshape, ?_, ?_⟩
  · rw [mkSegments_durMap, planSegs_durSum]
    have hmod : ((parent.end_ - parent.start) / 60000 - (count - 1) * brk) % count < count :=
      Nat.mod_lt _ (by omega)
    have hdm := Nat.div_add_mod
      ((parent.end_ - parent.start) / 60000 - (count - 1) * brk) count
    omega
  · obtain ⟨q, hq, hq2⟩ := planSegs_getLast
      (((parent.end_ - parent.start) / 60000 - (count - 1) * brk) / count) brk count
      parent.start
      (((parent.end_ - parent.start) / 60000 - (count - 1) * brk) % count)
      (by omega)
    have hlast : (mkSegments parent freshId
        (planSegs (((parent.end_ - parent.start) / 60000 - (count - 1) * brk) / count)
          brk parent.start
          (((parent.end_ - parent.start) / 60000 - (count - 1) * brk) % count) count) 0).getLast?.map
            (fun e : Event => (e.start, e.end_))
        = some q := by
      rw [← List.getLast?_map, mkSegments_intervals]
      exact hq
    obtain ⟨lastSeg, hl1, hl2⟩ := Option.map_eq_some'.mp hlast
    refine ⟨lastSeg, hl1, ?_, ?_⟩
    · have hend : lastSeg.end_ = q.2 := by rw [← hl2]
      rw [hend, hq2]
      have hmod : ((parent.end_ - parent.start) / 60000 - (count - 1) * brk) % count < count :=
        Nat.mod_lt _ (by omega)
      have hdm := Nat.div_add_mod
        ((parent.end_ - parent.start) / 60000 - (count - 1) * brk) count
      have hassoc : (count - 1) * (brk * 60000) = ((count - 1) * brk) * 60000 := by ring
      rw [hassoc]
      have hmin : min (((parent.end_ - parent.start) / 60000 - (count - 1) * brk) % count) count
          = ((parent.end_ - parent.start) / 60000 - (count - 1) * brk) % count := by omega
      rw [hmin]
      have hmul : count * (((parent.end_ - parent.start) / 60000 - (count - 1) * brk) / count)
            + ((parent.end_ - parent.start) / 60000 - (count - 1) * brk) % count
          = (parent.end_ - parent.start) / 60000 - (count - 1) * brk := hdm
      omega
    · intro halign
      have hend : lastSeg.end_ = q.2 := by rw [← hl2]
      have hmod : ((parent.end_ - parent.start) / 60000 - (count - 1) * brk) % count < count :=
        Nat.mod_lt _ (by omega)
      have hdm := Nat.div_add_mod
        ((parent.end_ - parent.start) / 60000 - (count - 1) * brk) count
      have hassoc : (count - 1) * (brk * 60000) = ((count - 1) * brk) * 60000 := by ring
      rw [hend, hq2, hassoc]
      omega

/-- A 200-minute parent event (the spec's scenario B shape). -/
def c1Parent : Event :=
  ⟨1, 7, 0, 12000000, Level.low, Level.low, Difficulty.medium, none, none, none⟩

/-- C1 witness: splitting the 200-minute parent into 3 segments with
10-minute breaks at concrete inputs. -/
theorem split_conservation_witness :
    ∃ segs : List Event,
      splitHandler [c1Parent] 10 1 3 10 = .ok segs ∧
      ((segs.map (fun e => (e.end_ - e.start) / 60000)).sum + (3 - 1) * 10
          = (c1Parent.end_ - c1Parent.start) / 60000) ∧
      (∃ lastSeg : Event, segs.getLast? = some lastSeg ∧
        lastSeg.end_ = c1Parent.start + ((c1Parent.end_ - c1Parent.start) / 60000) * 60000 ∧
        ((c1Parent.end_ - c1Parent.start) % 60000 = 0 → lastSeg.end_ = c1Parent.end_)) :=
  split_conservation [c1Parent] 10 1 3 10 c1Parent (by decide) (by decide) (by decide)
    (by decide)

/-- A parent whose duration is 90 seconds: `end > start`, and with count 2
and break 0 the usable minutes are `floor(90000 ms / 60000) = 1 > 0`, so the
split request is valid in the claim's sense. -/
def c1MisParent : Event :=
  ⟨1, 7, 0, 90000, Level.low, Level.low, Difficulty.medium, none, none, none⟩

/-- C1 counterexample: on the 90-second parent (valid request: `end > start`,
count 2 >= 2, break 0 >= 0, usable minutes 1 > 0) the split succeeds and the
final segment ends at 60000 ms, not at the parent's end 90000 ms, so the
final segment's end does not equal the parent's end exactly. -/
theorem split_conservation_counterexample :
    splitHandler [c1MisParent] 10 1 2 0 =
      .ok [⟨10, 7, 0, 60000, Level.low, Level.low, Difficulty.medium, none, some 1, some 0⟩,
           ⟨11, 7, 60000, 60000, Level.low, Level.low, Difficulty.medium, none, some 1, some 1⟩] ∧
    c1MisParent.start = 0 ∧ c1MisParent.end_ = 90000 :=
  ⟨rfl, rfl, rfl⟩

/-- C4 (amended): the 180-minute policy floor is enforced only in the chat
SPLIT_TASK path: there any parent under 180 minutes is rejected with an
error, and a 180-minute parent with admissible breaks is accepted; the
direct `POST /events/:id/split` endpoint applies no floor and accepts any
parent passing its other guards, regardless of duration. -/
theorem split_floor (db : List Event) (freshId i n b : ℕ) (ev parent : Event) :
    ((ev.end_ - ev.start) / 60000 < 180 →
      ∃ msg, chatSplitCore freshId ev n b = .error msg) ∧
    ((ev.end_ - ev.start) / 60000 = 180 → (max 2 n - 1) * b < 180 →
      ∃ segs, chatSplitCore freshId ev n b = .ok segs) ∧
    (findById db i = some parent → parent.start < parent.end_ → 2 ≤ max 1 n →
      (max 1 n - 1) * b < (parent.end_ - parent.start) / 60000 →
      ∃ segs, splitHandler db freshId i n b = .ok segs) := by
  refine ⟨?_, ?_, ?_⟩
  · intro h
    by_cases h1 : (ev.end_ - ev.start) / 60000 ≤ (max 2 n - 1) * b
    · exact ⟨_, by simp only [chatSplitCore]; rw [if_pos h1]⟩
    · exact ⟨_, by simp only [chatSplitCore]; rw [if_neg h1, if_pos h]⟩
  · intro h180 hb
    exact ⟨_, by simp only [chatSplitCore]; rw [if_neg (by omega), if_neg (by omega)]⟩
  · intro hp h1 h2 h3
    exact ⟨_, splitHandler_ok_shape db freshId i n b parent hp h1 h2 h3⟩

/-- A 179-minute parent event. -/
def c4Parent : Event :=
  ⟨1, 7, 0, 10740000, Level.low, Level.low, Difficulty.medium, none, none, none⟩

/-- A 180-minute parent event. -/
def c4Ev180 : Event :=
  ⟨1, 7, 0, 10800000, Level.low, Level.low, Difficulty.medium, none, none, none⟩

/-- C4 counterexample: the direct split endpoint accepts the 179-minute
parent (count 2, break 0) and creates its segments, so a split request on a
parent shorter than 180 minutes is not always rejected. -/
theorem split_floor_counterexample :
    splitHandler [c4Parent] 10 1 2 0 =
      .ok [⟨10, 7, 0, 5400000, Level.low, Level.low, Difficulty.medium, none, some 1, some 0⟩,
           ⟨11, 7, 5400000, 10740000, Level.low, Level.low, Difficulty.medium, none,
             some 1, some 1⟩] ∧
    (c4Parent.end_ - c4Parent.start) / 60000 = 179 :=
  ⟨rfl, rfl⟩

/-- C4 witness: the chat path rejects the 179-minute parent and accepts the
180-minute one, while the direct endpoint accepts the 179-minute parent. -/
theorem split_floor_witness :
    (∃ msg, chatSplitCore 10 c4Parent 2 0 = .error msg) ∧
    (∃ segs, chatSplitCore 10 c4Ev180 2 0 = .ok segs) ∧
    (∃ segs, splitHandler [c4Parent] 10 1 2 0 = .ok segs) :=
  ⟨(split_floor [] 10 1 2 0 c4Parent c4Parent).1 (by decide),
   (split_floor [] 10 1 2 0 c4Ev180 c4Ev180).2.1 (by decide) (by decide),
   (split_floor [c4Parent] 10 1 2 0 c4Parent c4Parent).2.2 (by decide) (by decide)
     (by decide) (by decide)⟩

lemma splitHandler_ok_mem (db : List Event) (freshId i n b : ℕ) (parent : Event)
    (segs : List Event)
    (hp : findById db i = some parent)
    (hok : splitHandler db freshId i n b = .ok segs) :
    ∀ e ∈ segs, e.segmentOf = some parent.id ∧ ∃ j, e.id = freshId + j := by
  simp only [splitHandler, hp] at hok
  split at hok
  · simp at hok
  · split at hok
    · simp at hok
    · split at hok
      · simp at hok
      · simp only [Except.ok.injEq] at hok
        subst hok
        intro e he
        obtain ⟨h1, _, _, j, _, hj⟩ := mkSegments_mem parent freshId _ 0 e he
        exact ⟨h1, j, hj⟩

/-- C8 (amended): the split handlers do not require their target to be a
non-child, so the no-grandchildren invariant is preserved by a split only
when the resolved target is itself not a child (here: every stored event
carrying the target's id is a non-child) and the created ids are fresh;
under those side conditions the invariant carries over to the extended
store.  Splitting a child event violates the invariant (see the
counterexample). -/
theorem split_preserves_childInv (db : List Event) (freshId i n b : ℕ) (parent : Event)
    (segs : List Event)
    (hinv : childInv db)
    (hp : findById db i = some parent)
    (hidlt : ∀ e ∈ db, e.id < freshId)
    (hreflt : ∀ e ∈ db, ∀ pid, e.segmentOf = some pid → pid < freshId)
    (hpid : ∀ e ∈ db, e.id = parent.id → e.segmentOf = none)
    (hok : splitHandler db freshId i n b = .ok segs) :
    childInv (db ++ segs) := by
  have hmem := splitHandler_ok_mem db freshId i n b parent segs hp hok
  intro e he e' he' href
  rcases List.mem_append.mp he' with he'db | he'seg
  · rcases List.mem_append.mp he with hedb | heseg
    · exact hinv e hedb e' he'db href
    · obtain ⟨_, j, hj⟩ := hmem e heseg
      have := hreflt e' he'db e.id href
      omega
  · obtain ⟨hseg, _, _⟩ := hmem e' he'seg
    rw [hseg] at href
    have hid : e.id = parent.id := by
      injection href.symm
    rcases List.mem_append.mp he with hedb | heseg
    · exact hpid e hedb hid
    · obtain ⟨_, j, hj⟩ := hmem e heseg
      have hparent := (mem_of_findById db i parent hp).1
      have := hidlt parent hparent
      omega

/-- A 200-minute parent event (id 1) owning the child below. -/
def c8Parent : Event :=
  ⟨1, 7, 0, 12000000, Level.low, Level.low, Difficulty.medium, none, none, none⟩

/-- A child segment (id 2) of `c8Parent`, spanning the same 200 minutes. -/
def c8Child : Event :=
  ⟨2, 7, 0, 12000000, Level.low, Level.low, Difficulty.medium, none, some 1, some 0⟩

/-- C8 counterexample: the split endpoint resolves target id 2, which is a
child (`segmentOf = some 1`), and happily creates segments whose
`segmentOf` is 2 — after which the store violates the invariant that an
event with `segmentOf` set is never itself referenced as a parent. -/
theorem split_childInv_counterexample :
    splitHandler [c8Parent, c8Child] 10 2 2 0 =
      .ok [⟨10, 7, 0, 6000000, Level.low, Level.low, Difficulty.medium, none, some 2, some 0⟩,
           ⟨11, 7, 6000000, 12000000, Level.low, Level.low, Difficulty.medium, none,
             some 2, some 1⟩] ∧
    c8Child.segmentOf = some 1 ∧
    ¬ childInv ([c8Parent, c8Child] ++
      [⟨10, 7, 0, 6000000, Level.low, Level.low, Difficulty.medium, none, some 2, some 0⟩,
       ⟨11, 7, 6000000, 12000000, Level.low, Level.low, Difficulty.medium, none,
         some 2, some 1⟩]) := by
  refine ⟨rfl, rfl, ?_⟩
  intro h
  have := h c8Child (by simp)
    ⟨10, 7, 0, 6000000, Level.low, Level.low, Difficulty.medium, none, some 2, some 0⟩
    (by simp) (by simp [c8Child])
  simp [c8Child] at this

/-- C8 witness: splitting the standalone 200-minute parent alone in the
store preserves the invariant. -/
theorem split_preserves_childInv_witness :
    childInv ([c8Parent] ++
      [⟨10, 7, 0, 6000000, Level.low, Level.low, Difficulty.medium, none, some 1, some 0⟩,
       ⟨11, 7, 6000000, 12000000, Level.low, Level.low, Difficulty.medium, none,
         some 1, some 1⟩]) :=
  split_preserves_childInv [c8Parent] 10 1 2 0 c8Parent _
    (by decide) (by decide) (by decide) (by decide) (by decide) rfl

/-- C3 (amended): the chat ADD/EDIT conflict lookups and `part_000`'s
`POST /events` lookup are exact-match — any reported conflict has exactly
the candidate's owner, start and end (and, for edit, is not the edited
event), and an exactly-matching stored event is always reported.  The
`src/server.js` variant's `POST /events` instead reports any overlapping
event (see the counterexample). -/
theorem conflict_exactness (db : List Event) (uid exId s e : ℕ) (ev : Event) :
    (chatAddConflict db uid s e = some ev →
      ev.userId = uid ∧ ev.start = s ∧ ev.end_ = e) ∧
    (chatEditConflict db uid exId s e = some ev →
      ev.userId = uid ∧ ev.id ≠ exId ∧ ev.start = s ∧ ev.end_ = e) ∧
    (postEventsConflict db uid s e = some ev →
      ev.userId = uid ∧ ev.start = s ∧ ev.end_ = e) ∧
    ((∃ x ∈ db, x.userId = uid ∧ x.start = s ∧ x.end_ = e) →
      ∃ x, chatAddConflict db uid s e = some x) := by
  refine ⟨?_, ?_, ?_, ?_⟩
  · intro h
    have hp := List.find?_some h
    simp only [Bool.and_eq_true, beq_iff_eq] at hp
    exact ⟨hp.1.1, hp.1.2, hp.2⟩
  · intro h
    have hp := List.find?_some h
    simp only [Bool.and_eq_true, beq_iff_eq, bne_iff_ne] at hp
    exact ⟨hp.1.1.1, hp.1.1.2, hp.1.2, hp.2⟩
  · intro h
    have hp := List.find?_some h
    simp only [Bool.and_eq_true, beq_iff_eq] at hp
    exact ⟨hp.1.1, hp.1.2, hp.2⟩
  · intro ⟨x, hx, h1, h2, h3⟩
    have : (chatAddConflict db uid s e).isSome := by
      simp only [chatAddConflict]
      rw [List.find?_isSome]
      exact ⟨x, hx, by simp [h1, h2, h3]⟩
    exact Option.isSome_iff_exists.mp this

/-- An event overlapping — but not equal to — the candidate interval
`[0, 3600000)`: it runs from minute 1 to minute 61. -/
def c3Overlap : Event :=
  ⟨1, 7, 60000, 3660000, Level.low, Level.low, Difficulty.medium, none, none, none⟩

/-- C3 counterexample: the `src/server.js` `POST /events` conflict query
reports the merely-overlapping event at `{start: T+1m, end: T+61m}` for the
candidate `{start: T, end: T+60m}`, so the conflict check is not exact-match
on that path. -/
theorem conflict_exactness_counterexample :
    serverJsPostEventsConflict [c3Overlap] 7 0 3600000 = some c3Overlap ∧
    c3Overlap.start ≠ 0 ∧ c3Overlap.end_ ≠ 3600000 :=
  ⟨rfl, by decide, by decide⟩

/-- An event exactly matching the candidate interval `[0, 3600000)`. -/
def c3Exact : Event :=
  ⟨2, 7, 0, 3600000, Level.low, Level.low, Difficulty.medium, none, none, none⟩

/-- C3 witness: the chat ADD lookup reports the identical stored interval,
and whatever it reports matches the candidate exactly. -/
theorem conflict_exactness_witness :
    (c3Exact.userId = 7 ∧ c3Exact.start = 0 ∧ c3Exact.end_ = 3600000) ∧
    (∃ x, chatAddConflict [c3Exact] 7 0 3600000 = some x) :=
  ⟨(conflict_exactness [c3Exact] 7 9 0 3600000 c3Exact).1 rfl,
   (conflict_exactness [c3Exact] 7 9 0 3600000 c3Exact).2.2.2
     ⟨c3Exact, by simp, by decide⟩⟩

/-- C7 (amended): the PATCH status handler writes the requested status
unconditionally — after a successful request the target's status is the
requested value whatever it was before, so beyond `null → completed` and
`null → missed` the handler also re-marks already-resolved events
(`completed → missed` and `missed → completed`). -/
theorem patch_writes_status (db : List Event) (i : ℕ) (st : Status) (ev : Event)
    (h : findById db i = some ev) (hs : ev.segmentOf ≠ some i) :
    ∃ db' ev', patchStatus db i st = .ok db' ∧ findById db' i = some ev' ∧
      ev'.status = some st := by
  have h1 : findById (setStatus db i st) i = some { ev with status := some st } :=
    findById_setStatus_self db i st ev h
  rcases hseg : ev.segmentOf with _ | pid
  · simp only [patchStatus, h, hseg]
    by_cases hc : st = Status.completed
    · rw [if_pos hc]
      have hid : ∀ x : Event,
          ((if x.segmentOf == some i && x.status == none then
            { x with status := some Status.completed } else x) : Event).id = x.id := by
        intro x
        by_cases hx : (x.segmentOf == some i && x.status == none) = true <;> simp [hx]
      refine ⟨_, { ev with status := some st }, rfl, ?_, rfl⟩
      rw [findById_map _ _ hid i, h1, Option.map_some']
      have hno : ((some st : Option Status) == none) = false := by cases st <;> rfl
      simp [hno]
    · rw [if_neg hc]
      exact ⟨_, { ev with status := some st }, rfl, h1, rfl⟩
  · have hpi : pid ≠ i := by
      intro hpe
      rw [hseg, hpe] at hs
      exact hs rfl
    simp only [patchStatus, h, hseg]
    by_cases hfin : completedCount (childrenOf (setStatus db i st) pid)
        + missedCount (childrenOf (setStatus db i st) pid)
        = (childrenOf (setStatus db i st) pid).length
    · rw [if_pos hfin]
      refine ⟨_, { ev with status := some st }, rfl, ?_, rfl⟩
      exact findById_setStatus_other (setStatus db i st) pid i _ _ h1 hpi
    · rw [if_neg hfin]
      exact ⟨_, { ev with status := some st }, rfl, h1, rfl⟩

/-- An already-completed event. -/
def c7Done : Event :=
  ⟨1, 7, 0, 60000, Level.low, Level.low, Difficulty.medium, some Status.completed, none, none⟩

/-- C7 counterexample: PATCHing status `missed` onto the already-completed
event overwrites it — a `completed → missed` transition, which the claim
says never happens. -/
theorem patch_writes_status_counterexample :
    patchStatus [c7Done] 1 Status.missed =
      .ok [⟨1, 7, 0, 60000, Level.low, Level.low, Difficulty.medium, some Status.missed,
        none, none⟩] ∧
    c7Done.status = some Status.completed :=
  ⟨rfl, rfl⟩

/-- A pending standalone event. -/
def c7Pending : Event :=
  ⟨1, 7, 0, 60000, Level.low, Level.low, Difficulty.medium, none, none, none⟩

/-- C7 witness: the PATCH handler writes the requested status on a concrete
pending event. -/
theorem patch_writes_status_witness :
    ∃ db' ev', patchStatus [c7Pending] 1 Status.completed = .ok db' ∧
      findById db' 1 = some ev' ∧ ev'.status = some Status.completed :=
  patch_writes_status [c7Pending] 1 Status.completed c7Pending rfl (by decide)

/-- C6 (amended): in the chat mark paths a completed mark is rejected while
the event (a standalone parent, or a child segment) still ends in the
future, with no store write, and a missed mark is accepted at any time; the
direct PATCH status endpoint, by contrast, consults no clock at all (see
the counterexample). -/
theorem mark_future_check (db : List Event) (now : ℕ) (ev parent child : Event) :
    (childrenOf db ev.id = [] → now < ev.end_ →
      ∃ msg, chatMark db now ev Status.completed = .error msg) ∧
    (∃ db', chatMark db now ev Status.missed = .ok db') ∧
    (now < child.end_ →
      ∃ msg, chatMarkSegment db now parent child Status.completed = .error msg) ∧
    (∃ db', chatMarkSegment db now parent child Status.missed = .ok db') := by
  refine ⟨?_, ?_, ?_, ?_⟩
  · intro hkids hfut
    have heq : chatMark db now ev Status.completed
        = .error "Cannot mark as completed because it ends in the future." := by
      simp only [chatMark, hkids, List.filter_nil]
      rw [if_neg (by simp), if_neg (by simp), if_pos hfut]
    exact ⟨_, heq⟩
  · exact ⟨_, rfl⟩
  · intro hfut
    have heq : chatMarkSegment db now parent child Status.completed
        = .error "Cannot mark the segment completed because it ends in the future." := by
      simp only [chatMarkSegment]
      rw [if_pos (show True ∧ now < child.end_ from ⟨trivial, hfut⟩)]
    exact ⟨_, heq⟩
  · by_cases hfin : completedCount (childrenOf (setStatus db child.id Status.missed) parent.id)
        + missedCount (childrenOf (setStatus db child.id Status.missed) parent.id)
        = (childrenOf (setStatus db child.id Status.missed) parent.id).length
    · exact ⟨setStatus (setStatus db child.id Status.missed) parent.id
        (if missedCount (childrenOf (setStatus db child.id Status.missed) parent.id) = 0
          then Status.completed else Status.missed), by
        simp only [chatMarkSegment]
        rw [if_neg (by simp), if_pos hfin]⟩
    · exact ⟨setStatus db child.id Status.missed, by
        simp only [chatMarkSegment]
        rw [if_neg (by simp), if_neg hfin]⟩


/-- A pending standalone event ending at time 60000. -/
def c6Ev : Event :=
  ⟨1, 7, 0, 60000, Level.low, Level.low, Difficulty.medium, none, none, none⟩

/-- A pending child segment of `c6Ev`, also ending at 60000. -/
def c6Child : Event :=
  ⟨2, 7, 0, 60000, Level.low, Level.low, Difficulty.medium, none, some 1, some 0⟩

/-- C6 counterexample: at current time 0 the event still ends strictly in
the future (60000), yet the direct PATCH status endpoint — which takes no
notion of the current time — performs the completed write instead of
rejecting the request. -/
theorem mark_future_check_counterexample :
    patchStatus [c6Ev] 1 Status.completed =
      .ok [⟨1, 7, 0, 60000, Level.low, Level.low, Difficulty.medium, some Status.completed,
        none, none⟩] ∧
    0 < c6Ev.end_ :=
  ⟨rfl, by decide⟩

/-- C6 witness: the chat paths at time 0 reject completed marks on the
future-ending event and child but accept missed marks. -/
theorem mark_future_check_witness :
    (∃ msg, chatMark [] 0 c6Ev Status.completed = .error msg) ∧
    (∃ db', chatMark [] 0 c6Ev Status.missed = .ok db') ∧
    (∃ msg, chatMarkSegment [] 0 c6Ev c6Child Status.completed = .error msg) ∧
    (∃ db', chatMarkSegment [] 0 c6Ev c6Child Status.missed = .ok db') :=
  ⟨(mark_future_check [] 0 c6Ev c6Ev c6Child).1 rfl (by decide),
   (mark_future_check [] 0 c6Ev c6Ev c6Child).2.1,
   (mark_future_check [] 0 c6Ev c6Ev c6Child).2.2.1 (by decide),
   (mark_future_check [] 0 c6Ev c6Ev c6Child).2.2.2⟩

/-- C2 (amended): in the `part_000` PATCH status handler, after a child is
marked, the parent is finalized within the same request exactly when every
sibling (post-write) is resolved — to `completed` when zero are missed,
else `missed` — and is left untouched when some sibling is still pending.
The `src/server.js` variant finalizes only the all-completed case on a
completed mark and leaves the mixed case unfinalized (see counterexample). -/
theorem child_finalization (db : List Event) (childId pid : ℕ) (st : Status)
    (child parent : Event)
    (hfind : findById db childId = some child)
    (hseg : child.segmentOf = some pid)
    (hp : findById db pid = some parent)
    (hne : pid ≠ childId) :
    ∃ db', patchStatus db childId st = .ok db' ∧
      ((∀ k ∈ childrenOf (setStatus db childId st) pid, k.status ≠ none) →
        findById db' pid = some { parent with status :=
          (some (if missedCount (childrenOf (setStatus db childId st) pid) = 0
            then Status.completed else Status.missed)) }) ∧
      ((∃ k ∈ childrenOf (setStatus db childId st) pid, k.status = none) →
        findById db' pid = some parent) := by
  have h1 : findById (setStatus db childId st) pid = some parent :=
    findById_setStatus_other db childId pid st parent hp (Ne.symm hne)
  simp only [patchStatus, hfind, hseg]
  by_cases hfin : completedCount (childrenOf (setStatus db childId st) pid)
      + missedCount (childrenOf (setStatus db childId st) pid)
      = (childrenOf (setStatus db childId st) pid).length
  · rw [if_pos hfin]
    refine ⟨_, rfl, ?_, ?_⟩
    · intro _
      exact findById_setStatus_self _ pid _ parent h1
    · intro ⟨k, hk, hknone⟩
      exact absurd hknone (((resolved_count _).mp hfin) k hk)
  · rw [if_neg hfin]
    refine ⟨_, rfl, ?_, ?_⟩
    · intro hall
      exact absurd ((resolved_count _).mpr hall) hfin
    · intro _
      exact h1

/-- A three-child parent: two children completed, one still pending. -/
def c2Parent : Event :=
  ⟨1, 7, 0, 10800000, Level.low, Level.low, Difficulty.medium, none, none, none⟩

/-- First child of `c2Parent`, completed. -/
def c2Kid2 : Event :=
  ⟨2, 7, 0, 3600000, Level.low, Level.low, Difficulty.medium, some Status.completed,
    some 1, some 0⟩

/-- Second child of `c2Parent`, completed. -/
def c2Kid3 : Event :=
  ⟨3, 7, 3600000, 7200000, Level.low, Level.low, Difficulty.medium, some Status.completed,
    some 1, some 1⟩

/-- Third child of `c2Parent`, still pending. -/
def c2Kid4 : Event :=
  ⟨4, 7, 7200000, 10800000, Level.low, Level.low, Difficulty.medium, none, some 1, some 2⟩

/-- The store holding `c2Parent` and its three children. -/
def c2Db : List Event := [c2Parent, c2Kid2, c2Kid3, c2Kid4]

/-- C2 witness: marking the pending third child missed with siblings
[completed, completed] finalizes the parent within the request (to missed,
since one child is missed). -/
theorem child_finalization_witness :
    ∃ db', patchStatus c2Db 4 Status.missed = .ok db' ∧
      ((∀ k ∈ childrenOf (setStatus c2Db 4 Status.missed) 1, k.status ≠ none) →
        findById db' 1 = some { c2Parent with status :=
          (some (if missedCount (childrenOf (setStatus c2Db 4 Status.missed) 1) = 0
            then Status.completed else Status.missed)) }) ∧
      ((∃ k ∈ childrenOf (setStatus c2Db 4 Status.missed) 1, k.status = none) →
        findById db' 1 = some c2Parent) :=
  child_finalization c2Db 4 1 Status.missed c2Kid4 c2Parent (by decide) (by decide)
    (by decide) (by decide)

/-- C2 counterexample: in the `src/server.js` variant, marking the last
pending child missed resolves every sibling ([completed, completed,
missed]) yet the parent is left with status null — it is not finalized to
missed as the claim requires. -/
theorem child_finalization_counterexample :
    serverPatchStatus c2Db 4 Status.missed =
      .ok [c2Parent, c2Kid2, c2Kid3,
        ⟨4, 7, 7200000, 10800000, Level.low, Level.low, Difficulty.medium,
          some Status.missed, some 1, some 2⟩] ∧
    (∀ k ∈ childrenOf [c2Parent, c2Kid2, c2Kid3,
        ⟨4, 7, 7200000, 10800000, Level.low, Level.low, Difficulty.medium,
          some Status.missed, some 1, some 2⟩] 1, k.status ≠ none) ∧
    c2Parent.status = none ∧
    findById [c2Parent, c2Kid2, c2Kid3,
        ⟨4, 7, 7200000, 10800000, Level.low, Level.low, Difficulty.medium,
          some Status.missed, some 1, some 2⟩] 1 = some c2Parent :=
  ⟨rfl, by decide, rfl, rfl⟩

/-- C10 (confirmed): in the chat MARK path, marking a resolved parent
missed maps the store pointwise — the parent's own status becomes missed;
a child of the parent whose status was null becomes missed; every other
event (including already-resolved children) is unchanged — and no input,
in particular no end time relative to `now`, makes the request fail. -/
theorem mark_missed_cascade (db : List Event) (now : ℕ) (parent : Event) :
    chatMark db now parent Status.missed =
      .ok (db.map (fun e =>
        if e.id = parent.id then { e with status := some Status.missed }
        else if e.segmentOf = some parent.id ∧ e.status = none then
          { e with status := some Status.missed }
        else e)) := by
  simp only [chatMark, setStatus, List.map_map]
  congr 1
  apply List.map_congr_left
  intro e _
  simp only [Function.comp]
  by_cases h1 : e.id = parent.id <;>
    by_cases h2 : e.segmentOf = some parent.id <;>
      by_cases h3 : e.status = (none : Option Status) <;>
        simp [h1, h2, h3]

/-- C5 (confirmed): for a non-empty conflict list and desired duration of
at least one minute, `buildSuggestions` returns exactly three suggestions
in order — the first starting at the later of the latest conflict end and
`now`, the second exactly one hour after the first, the third at 08:00
local time on the day after `now` — each lasting exactly the desired
duration. -/
theorem suggestion_shape (c0 : Event) (rest : List Event) (now D : ℕ) (hD : 1 ≤ D) :
    ∃ s1 s2 s3 : Suggestion,
      buildSuggestions (c0 :: rest) now D = [s1, s2, s3] ∧
      s1.start = max (((c0 :: rest).map (fun e => e.end_)).foldr max 0) now ∧
      s1.end_ = s1.start + D * 60000 ∧
      s2.start = s1.start + 3600000 ∧
      s2.end_ = s2.start + D * 60000 ∧
      s3.start = startOfDay now + msPerDay + 8 * 3600000 ∧
      s3.end_ = s3.start + D * 60000 := by
  have hfold : ∀ (l : List Event) (a : ℕ),
      l.foldl (fun acc c => if acc < c.end_ then c.end_ else acc) a
        = max a ((l.map (fun e => e.end_)).foldr max 0) := by
    intro l
    induction l with
    | nil => intro a; simp
    | cons c t ih =>
      intro a
      simp only [List.foldl_cons, List.map_cons, List.foldr_cons]
      rw [ih]
      have hstep : (if a < c.end_ then c.end_ else a) = max a c.end_ := by
        split <;> omega
      rw [hstep]
      omega
  have hdur : max 1 D = D := by omega
  refine ⟨_, _, _, rfl, ?_, ?_, ?_, ?_, ?_, ?_⟩
  · simp only [hfold, List.map_cons, List.foldr_cons]
    split <;> omega
  · simp only [hdur]
  · rfl
  · simp only [hdur]
  · simp only [startOfDay, msPerDay]
    omega
  · simp only [hdur]

/-- A conflicting event ending at time 3600000 (one hour). -/
def c5Conflict : Event :=
  ⟨1, 7, 0, 3600000, Level.low, Level.low, Difficulty.medium, none, none, none⟩

/-- C5 witness: suggestions for one conflict ending at one hour, at time
half past midnight, for a 60-minute desired duration. -/
theorem suggestion_shape_witness :
    ∃ s1 s2 s3 : Suggestion,
      buildSuggestions [c5Conflict] 1800000 60 = [s1, s2, s3] ∧
      s1.start = max (([c5Conflict].map (fun e => e.end_)).foldr max 0) 1800000 ∧
      s1.end_ = s1.start + 60 * 60000 ∧
      s2.start = s1.start + 3600000 ∧
      s2.end_ = s2.start + 60 * 60000 ∧
      s3.start = startOfDay 1800000 + msPerDay + 8 * 3600000 ∧
      s3.end_ = s3.start + 60 * 60000 :=
  suggestion_shape c5Conflict [] 1800000 60 (by decide)

/-- C9 (amended): a month-name-plus-day phrase with no explicit year never
resolves to a date before today; when the current year's date has already
passed, one year is added with dayjs's end-of-month clamping, so the month
is preserved and the day is preserved exactly when it fits in that month of
the next year (every real date except Feb 29 of a leap year); an explicit
year is taken exactly as written. -/
theorem monthday_not_past (today : SDate) (monIdx dayNum : ℕ) :
    (¬ dateBefore (findMonthDay today monIdx dayNum none) today) ∧
    ((findMonthDay today monIdx dayNum none).month = monIdx) ∧
    (dateBefore ⟨today.year, monIdx, dayNum⟩ today →
      findMonthDay today monIdx dayNum none
        = ⟨today.year + 1, monIdx, min dayNum (daysInMonth (today.year + 1) monIdx)⟩) ∧
    (dateBefore ⟨today.year, monIdx, dayNum⟩ today →
      dayNum ≤ daysInMonth (today.year + 1) monIdx →
      (findMonthDay today monIdx dayNum none).day = dayNum) ∧
    (¬ dateBefore ⟨today.year, monIdx, dayNum⟩ today →
      findMonthDay today monIdx dayNum none = ⟨today.year, monIdx, dayNum⟩) ∧
    (∀ y, findMonthDay today monIdx dayNum (some y) = ⟨y, monIdx, dayNum⟩) := by
  by_cases hb : dateBefore ⟨today.year, monIdx, dayNum⟩ today
  · have hres : findMonthDay today monIdx dayNum none
        = ⟨today.year + 1, monIdx, min dayNum (daysInMonth (today.year + 1) monIdx)⟩ := by
      simp only [findMonthDay, addOneYear]
      rw [if_pos hb]
    refine ⟨?_, ?_, ?_, ?_, ?_, ?_⟩
    · rw [hres]
      intro hlt
      rcases hlt with h | ⟨h, _⟩ <;> simp at h
    · rw [hres]
    · intro _
      exact hres
    · intro _ hfit
      rw [hres]
      simp only []
      omega
    · intro h
      exact absurd hb h
    · intro y
      rfl
  · have hres : findMonthDay today monIdx dayNum none
        = ⟨today.year, monIdx, dayNum⟩ := by
      simp only [findMonthDay]
      rw [if_neg hb]
    refine ⟨?_, ?_, ?_, ?_, ?_, ?_⟩
    · rw [hres]
      exact hb
    · rw [hres]
    · intro h
      exact absurd h hb
    · intro h
      exact absurd h hb
    · intro _
      exact hres
    · intro y
      rfl

/-- C9 counterexample: with today = 2024-10-11 (a leap year, month index 9),
the phrase "feb 29" (month index 1, day 29 — a real date of 2024 that has
already passed) resolves to 2025-02-28, not to the same month and day of
the next year: dayjs clamps the day to the 28 days of February 2025. -/
theorem monthday_not_past_counterexample :
    findMonthDay ⟨2024, 9, 11⟩ 1 29 none = ⟨2025, 1, 28⟩ ∧
    dateBefore ⟨2024, 1, 29⟩ ⟨2024, 9, 11⟩ ∧
    daysInMonth 2024 1 = 29 ∧
    (findMonthDay ⟨2024, 9, 11⟩ 1 29 none).day ≠ 29 := by
  refine ⟨?_, ?_, ?_, ?_⟩ <;> decide

/-- C9 witness: with today = 2026-10-11 (month index 9), the phrase
"mar 5" (month index 2, already past this year) resolves to 2027-03-05 with
month and day preserved; the phrase "nov 12" (not yet past) stays in 2026;
and "mar 5, 2025" with an explicit year is taken as written. -/
theorem monthday_not_past_witness :
    (¬ dateBefore (findMonthDay ⟨2026, 9, 11⟩ 2 5 none) ⟨2026, 9, 11⟩) ∧
    findMonthDay ⟨2026, 9, 11⟩ 2 5 none
      = ⟨2026 + 1, 2, min 5 (daysInMonth (2026 + 1) 2)⟩ ∧
    (findMonthDay ⟨2026, 9, 11⟩ 2 5 none).day = 5 ∧
    findMonthDay ⟨2026, 9, 11⟩ 10 12 none = ⟨2026, 10, 12⟩ ∧
    findMonthDay ⟨2026, 9, 11⟩ 2 5 (some 2025) = ⟨2025, 2, 5⟩ :=
  ⟨(monthday_not_past ⟨2026, 9, 11⟩ 2 5).1,
   (monthday_not_past ⟨2026, 9, 11⟩ 2 5).2.2.1 (by decide),
   (monthday_not_past ⟨2026, 9, 11⟩ 2 5).2.2.2.1 (by decide) (by decide),
   (monthday_not_past ⟨2026, 9, 11⟩ 10 12).2.2.2.2.1 (by decide),
   (monthday_not_past ⟨2026, 9, 11⟩ 2 5).2.2.2.2.2 2025⟩

end PlanIT
